import Mathlib

/-!
Verification development for the ascii_maker web core.

The JavaScript sources are shallowly embedded: grayscale grids become
`List (List ℚ)` (JS numbers modelled as exact rationals), RGBA canvases become
total pixel functions, and every operation is a computable Lean function
translated line by line from the corresponding JS function.
-/

/-- Clamp a rational to [0, 1], as the JS idiom Math.max(0.0, Math.min(1.0, v)). -/
def clamp01 (v : ℚ) : ℚ := max 0 (min 1 v)

/-- JavaScript Math.round: floor of x + 1/2 (halves round toward positive infinity). -/
def jsRound (x : ℚ) : ℤ := ⌊x + 1 / 2⌋

/-- Read cell (y, x) of a row-major rational grid; out-of-bounds reads default to 0. -/
def getCell (g : List (List ℚ)) (y x : ℕ) : ℚ := (g.getD y []).getD x 0

/-- Write cell (y, x) of a row-major rational grid; `List.set` drops out-of-bounds writes. -/
def setCell (g : List (List ℚ)) (y x : ℕ) (v : ℚ) : List (List ℚ) :=
  g.set y ((g.getD y []).set x v)

/-- Add `dv` to cell (y, x), as the JS `img[y][x] += dv`. -/
def addCell (g : List (List ℚ)) (y x : ℕ) (dv : ℚ) : List (List ℚ) :=
  setCell g y x (getCell g y x + dv)

/-- One visit of the inner loop body of `floydSteinberg`
(src/unnamed/part_001, lines 23-40): quantize the current cell with a clamp,
then push the quantization error to the four forward neighbours using the
source's nested bounds checks. -/
def fsDiffuseCell (step : ℚ) (h w : ℕ) (g : List (List ℚ)) (y x : ℕ) : List (List ℚ) :=
  let old := getCell g y x
  let newVal := clamp01 ((jsRound (old / step) : ℚ) * step)
  let g1 := setCell g y x newVal
  let err := old - newVal
  let g2 := if x + 1 < w then addCell g1 y (x + 1) (err * (7 / 16)) else g1
  if y + 1 < h then
    let g3 := if 0 < x then addCell g2 (y + 1) (x - 1) (err * (3 / 16)) else g2
    let g4 := addCell g3 (y + 1) x (err * (5 / 16))
    if x + 1 < w then addCell g4 (y + 1) (x + 1) (err * (1 / 16)) else g4
  else g2

/-- Floyd-Steinberg error-diffusion dithering, translated from `floydSteinberg`
(src/unnamed/part_001, lines 12-52): row-major pass over a copy of the input,
then a final full-grid clamp to [0, 1]. -/
def floydSteinberg (gray : List (List ℚ)) (levels : ℤ) : List (List ℚ) :=
  let h := gray.length
  let w := (gray.headD []).length
  let step : ℚ := if 1 < levels then 1 / ((levels : ℚ) - 1) else 1
  let img := (List.range h).foldl
    (fun g y => (List.range w).foldl (fun g2 x => fsDiffuseCell step h w g2 y x) g) gray
  img.map (fun row => row.map clamp01)

/-- One cell of the diffusion pseudocode as the specification words it
(spec.md §4.4): quantize with a clamp, then four independently guarded error
pushes to right, down-left, down, and down-right neighbours. -/
def specDiffuseCell (step : ℚ) (h w : ℕ) (g : List (List ℚ)) (y x : ℕ) : List (List ℚ) :=
  let old := getCell g y x
  let quantized := clamp01 ((jsRound (old / step) : ℚ) * step)
  let g1 := setCell g y x quantized
  let err := old - quantized
  let g2 := if x + 1 < w then addCell g1 y (x + 1) (err * (7 / 16)) else g1
  let g3 := if y + 1 < h ∧ 0 < x then addCell g2 (y + 1) (x - 1) (err * (3 / 16)) else g2
  let g4 := if y + 1 < h then addCell g3 (y + 1) x (err * (5 / 16)) else g3
  if y + 1 < h ∧ x + 1 < w then addCell g4 (y + 1) (x + 1) (err * (1 / 16)) else g4

/-- The diffusion pass as the specification describes it: same raster order,
same step rule, same final clamp, with `specDiffuseCell` at each cell. -/
def diffuseSpec (gray : List (List ℚ)) (levels : ℤ) : List (List ℚ) :=
  let h := gray.length
  let w := (gray.headD []).length
  let step : ℚ := if 1 < levels then 1 / ((levels : ℚ) - 1) else 1
  let img := (List.range h).foldl
    (fun g y => (List.range w).foldl (fun g2 x => specDiffuseCell step h w g2 y x) g) gray
  img.map (fun row => row.map clamp01)

theorem specDiffuseCell_eq_fsDiffuseCell (step : ℚ) (h w : ℕ) (g : List (List ℚ)) (y x : ℕ) :
    specDiffuseCell step h w g y x = fsDiffuseCell step h w g y x := by
  unfold specDiffuseCell fsDiffuseCell
  by_cases h1 : y + 1 < h <;> by_cases h2 : 0 < x <;> by_cases h3 : x + 1 < w <;>
    simp [h1, h2, h3]

theorem clamp01_nonneg (v : ℚ) : 0 ≤ clamp01 v := le_max_left 0 _

theorem clamp01_le_one (v : ℚ) : clamp01 v ≤ 1 :=
  max_le (by norm_num) (min_le_left 1 _)

/-- C1: for every grayscale grid and every levels, `floydSteinberg` computes
exactly the row-major quantize-and-diffuse pass worded by the spec (quantize to
clamp(round(old/step)·step, 0, 1) with step = 1/(levels-1) for levels > 1 and
1 otherwise, then push err·7/16 right, err·3/16 down-left, err·5/16 down,
err·1/16 down-right, each only in bounds), and after the final full-grid clamp
every cell of the result lies in [0, 1]. -/
theorem C1_floydSteinberg_contract :
    ∀ (gray : List (List ℚ)) (levels : ℤ),
      floydSteinberg gray levels = diffuseSpec gray levels ∧
      ((floydSteinberg gray levels).all fun row =>
        row.all fun v => decide (0 ≤ v) && decide (v ≤ 1)) = true := by
  intro gray levels
  constructor
  · unfold floydSteinberg diffuseSpec
    simp only [specDiffuseCell_eq_fsDiffuseCell]
  · unfold floydSteinberg
    simp only [List.all_eq_true, Bool.and_eq_true, decide_eq_true_eq]
    intro row hrow v hv
    obtain ⟨row0, -, rfl⟩ := List.mem_map.mp hrow
    obtain ⟨v0, -, rfl⟩ := List.mem_map.mp hv
    exact ⟨clamp01_nonneg v0, clamp01_le_one v0⟩

/-- Character ramp of the "simple" charset, CHARSETS.simple
(src/unnamed/part_001, line 60), ordered dark to light. -/
def simpleCharset : List Char := [' ', '.', ':', '-', '=', '+', '*', '#', '%', '@']

/-- Luminance-to-character mapping, translated from `mapArrayToChars`
(src/unnamed/part_001, lines 89-104): per cell, floor(v · maxIdx) clamped via
Math.max(0, Math.min(idx, maxIdx)), then index into the ramp.
Rows of characters stand for the JS strings. -/
def mapArrayToChars (chars : List Char) (luminanceRows : List (List ℚ)) : List (List Char) :=
  let maxIdx : ℤ := (chars.length : ℤ) - 1
  luminanceRows.map (fun row => row.map (fun v =>
    let idx := max 0 (min ⌊v * (maxIdx : ℚ)⌋ maxIdx)
    chars.getD idx.toNat ' '))

/-- Index formula as the specification words it (spec.md §4.5):
clamp(floor(luminance·(len-1)), 0, len-1), with clamp(x, lo, hi) = min(max(x, lo), hi). -/
def specCharIdx (len : ℕ) (v : ℚ) : ℤ :=
  min (max ⌊v * ((len : ℚ) - 1)⌋ 0) ((len : ℤ) - 1)

/-- The character mapper as the specification words it: emit ramp[specCharIdx]. -/
def specMapChars (chars : List Char) (rows : List (List ℚ)) : List (List Char) :=
  rows.map (fun row => row.map (fun v => chars.getD (specCharIdx chars.length v).toNat ' '))

/-- C7: for every charset ramp and luminance grid the mapper emits
ramp[clamp(floor(v·(len-1)), 0, len-1)] per cell, and on the 10-character
"simple" ramp luminance 0 gives ramp[0], 1/2 gives ramp[4], and 1 gives ramp[9]. -/
theorem C7_mapArrayToChars_contract :
    (∀ (chars : List Char) (rows : List (List ℚ)), chars ≠ [] →
      mapArrayToChars chars rows = specMapChars chars rows) ∧
    simpleCharset.length = 10 ∧
    mapArrayToChars simpleCharset [[0, 1/2, 1]] =
      [[simpleCharset.getD 0 ' ', simpleCharset.getD 4 ' ', simpleCharset.getD 9 ' ']] := by
  refine ⟨?_, by decide, ?_⟩
  · intro chars rows hne
    have hlen : 0 < chars.length := List.length_pos.mpr hne
    simp only [mapArrayToChars, specMapChars, specCharIdx]
    congr 1
    funext row
    congr 1
    funext v
    push_cast
    congr 1
    omega
  · unfold mapArrayToChars
    norm_num [simpleCharset]
    decide

/-- Dot-position bit table BRAILLE_DOT_BITS (src/unnamed/part_001, lines 117-122). -/
def BRAILLE_DOT_BITS : List (List ℕ) := [[0, 3], [1, 4], [2, 5], [6, 7]]

/-- Braille packing, translated from `brailleChar` (src/unnamed/part_001,
lines 129-139); it returns the codepoint 0x2800 + bitmask rather than the
one-character JS string. -/
def brailleCharCode (dots : List (List Bool)) : ℕ :=
  let code := (List.range 4).foldl (fun code row =>
    (List.range 2).foldl (fun code2 col =>
      if (dots.getD row []).getD col false then
        code2 ||| (1 <<< ((BRAILLE_DOT_BITS.getD row []).getD col 0))
      else code2) code) 0
  0x2800 + code

/-- C4: the braille encoder maps a 4×2 dot block to the single codepoint
0x2800 + bitmask with the fixed assignment (r0,c0)→bit0, (r0,c1)→bit3,
(r1,c0)→bit1, (r1,c1)→bit4, (r2,c0)→bit2, (r2,c1)→bit5, (r3,c0)→bit6,
(r3,c1)→bit7; the pattern with only (r0,c0) and (r3,c1) set gives
0x2800 + 0b10000001. -/
theorem C4_brailleChar_bits :
    (∀ a b c d e f g h2 : Bool,
      brailleCharCode [[a, b], [c, d], [e, f], [g, h2]] =
        0x2800 + ((cond a 1 0) + (cond b 8 0) + (cond c 2 0) + (cond d 16 0) +
          (cond e 4 0) + (cond f 32 0) + (cond g 64 0) + (cond h2 128 0))) ∧
    brailleCharCode [[true, false], [false, false], [false, false], [false, true]] =
      0x2800 + 0b10000001 := by
  exact ⟨by decide, by decide⟩

/-- C10 counterexample input: `floydSteinberg` performs no levels validation;
called with levels = 0 (< 1) on the grid [[0]] it returns the ordinary dithered
grid [[0]] instead of failing with any error. -/
theorem C10_counterexample : floydSteinberg [[0]] 0 = [[0]] := by
  have hcell : ∀ s : ℚ, fsDiffuseCell s 1 1 [[0]] 0 0 = [[0]] := by
    intro s
    unfold fsDiffuseCell
    norm_num [getCell, setCell, clamp01, jsRound]
  show ((List.range 1).foldl
      (fun g y => (List.range 1).foldl
        (fun g2 x =>
          fsDiffuseCell (if (1 : ℤ) < 0 then 1 / (((0 : ℤ) : ℚ) - 1) else 1) 1 1 g2 y x) g)
      [[0]]).map (fun row => row.map clamp01) = [[0]]
  norm_num [List.range_succ, hcell, clamp01]

/-- C10 amended: `floydSteinberg` has no levels validation and cannot fail;
every levels ≤ 1 (in particular every levels < 1) takes the step = 1 branch and
behaves exactly like levels = 1. -/
theorem C10_low_levels_no_error (gray : List (List ℚ)) (levels : ℤ)
    (hl : levels ≤ 1) : floydSteinberg gray levels = floydSteinberg gray 1 := by
  have h1 : ¬ (1 < levels) := not_lt.mpr hl
  have h2 : ¬ ((1 : ℤ) < 1) := by decide
  unfold floydSteinberg
  rw [if_neg h1, if_neg h2]

theorem C10_low_levels_no_error_witness :
    floydSteinberg [[0]] 0 = floydSteinberg [[0]] 1 :=
  C10_low_levels_no_error [[0]] 0 (by decide)

theorem C7_mapArrayToChars_contract_witness :
    mapArrayToChars simpleCharset [[0]] = specMapChars simpleCharset [[0]] :=
  C7_mapArrayToChars_contract.1 simpleCharset [[0]] (by decide)

/-- RGBA pixel with byte components. -/
structure Pixel where
  r : ℕ
  g : ℕ
  b : ℕ
  a : ℕ
deriving DecidableEq

/-- A canvas is a total pixel function (row-major browser canvas, pure model). -/
abbrev Canvas := ℕ → ℕ → Pixel

/-- Transparent black, the state of a fresh canvas and of cleared pixels. -/
def transparent : Pixel := ⟨0, 0, 0, 0⟩

/-- One decoded GIF frame as consumed by buildFullFrames: a patch with its
dims (left, top, width, height), a delay (none for unspecified), and the
disposal method. -/
structure RawFrame where
  left : ℕ
  top : ℕ
  width : ℕ
  height : ℕ
  patch : ℕ → ℕ → Pixel
  delay : Option ℕ
  disposalType : ℕ

/-- One composited output frame: full-canvas pixels plus a delay. -/
structure FullFrame where
  imageData : Canvas
  delay : ℕ

/-- Mutable loop state of buildFullFrames: the compositing canvas and the
previously saved snapshot (null before any keep-disposal frame). -/
structure CompositorState where
  canvas : Canvas
  previousImageData : Option Canvas

/-- Membership of pixel (x, y) in the frame's rectangle (dims.left, dims.top,
dims.width, dims.height). -/
def inRect (f : RawFrame) (x y : ℕ) : Prop :=
  f.left ≤ x ∧ x < f.left + f.width ∧ f.top ≤ y ∧ y < f.top + f.height

instance (f : RawFrame) (x y : ℕ) : Decidable (inRect f x y) := by
  unfold inRect; infer_instance

/-- Source-over blending of one source pixel onto one destination pixel,
modelling the external canvas primitive behind ctx.drawImage: a fully
transparent source leaves the destination unchanged, a fully opaque source
overwrites it, and partial alpha does a straight alpha blend. -/
def sourceOver (src dst : Pixel) : Pixel :=
  if src.a = 0 then dst
  else if src.a = 255 then src
  else
    ⟨(src.r * src.a + dst.r * (255 - src.a)) / 255,
     (src.g * src.a + dst.g * (255 - src.a)) / 255,
     (src.b * src.a + dst.b * (255 - src.a)) / 255,
     src.a + dst.a * (255 - src.a) / 255⟩

/-- Drawing the frame's patch onto the canvas at (dims.left, dims.top):
ctx.drawImage(patchCanvas, dims.left, dims.top), src/web/js/gif-parser.js line 61. -/
def drawPatch (c : Canvas) (f : RawFrame) : Canvas := fun x y =>
  if inRect f x y then sourceOver (f.patch (x - f.left) (y - f.top)) (c x y) else c x y

/-- The JS `delay || 100` of src/web/js/gif-parser.js line 67: a zero or
unspecified delay falls back to 100 ms. -/
def defaultDelay : Option ℕ → ℕ
  | some d => if d = 0 then 100 else d
  | none => 100

/-- One iteration of the buildFullFrames loop (src/web/js/gif-parser.js lines
40-83): draw the patch, capture the full frame with its normalized delay, then
apply the frame's own disposal method (2 clears the frame rectangle, 3 restores
the snapshot when one exists, anything else keeps the canvas and refreshes the
snapshot). Pixel-buffer copies are identities in this pure model. -/
def compositeStep (st : CompositorState) (f : RawFrame) : CompositorState × FullFrame :=
  let drawn := drawPatch st.canvas f
  let out : FullFrame := ⟨drawn, defaultDelay f.delay⟩
  let st2 : CompositorState :=
    if f.disposalType = 2 then
      ⟨fun x y => if inRect f x y then transparent else drawn x y, st.previousImageData⟩
    else if f.disposalType = 3 then
      ⟨match st.previousImageData with
        | some p => p
        | none => drawn, st.previousImageData⟩
    else
      ⟨drawn, some drawn⟩
  (st2, out)

/-- The frame loop of buildFullFrames, emitting one full frame per raw frame. -/
def buildSteps (st : CompositorState) : List RawFrame → List FullFrame
  | [] => []
  | f :: rest => (compositeStep st f).2 :: buildSteps (compositeStep st f).1 rest

/-- buildFullFrames (src/web/js/gif-parser.js lines 28-86): fresh transparent
canvas and null snapshot, then the per-frame loop. The width/height arguments
frame the canvas in the browser; the pure pixel-function model keeps whole
functions, so they do not constrain it. -/
def buildFullFrames (rawFrames : List RawFrame) (width height : ℕ) : List FullFrame :=
  buildSteps ⟨fun _ _ => transparent, none⟩ rawFrames

/-- The compositor state reached after a list of frames. -/
def runCompositor (st : CompositorState) : List RawFrame → CompositorState
  | [] => st
  | f :: rest => runCompositor (compositeStep st f).1 rest

/-- parseGifFromBuffer after GIF decoding (src/web/js/gif-parser.js lines
200-226), taking the already-decoded frame list: an empty list throws
"No frames found in GIF"; otherwise the logical canvas size is the running max
of dims.left + dims.width (resp. top + height) seeded with the first frame's
size, and buildFullFrames composites the sequence. -/
def parseGifFromBuffer : List RawFrame → Except String (List FullFrame × ℕ × ℕ)
  | [] => Except.error "No frames found in GIF"
  | f :: rest =>
    let maxWidth := ((f :: rest).map (fun fr => fr.left + fr.width)).foldl max f.width
    let maxHeight := ((f :: rest).map (fun fr => fr.top + fr.height)).foldl max f.height
    Except.ok (buildFullFrames (f :: rest) maxWidth maxHeight, maxWidth, maxHeight)

/-- C9: composite called on an empty raw-frame sequence fails with the
empty-sequence error and produces no output at all. -/
theorem C9_empty_sequence :
    parseGifFromBuffer [] = Except.error "No frames found in GIF" := rfl

/-- C2: for a frame with disposal RestoreBackground (2), after the output frame
is captured the disposal clears exactly the frame's rectangle to transparent,
leaves every canvas pixel outside the rectangle unchanged, and does not touch
the previous snapshot. -/
theorem C2_restore_background (st : CompositorState) (f : RawFrame)
    (hd : f.disposalType = 2) :
    ((compositeStep st f).2.imageData = drawPatch st.canvas f) ∧
    (∀ x y, inRect f x y → (compositeStep st f).1.canvas x y = transparent) ∧
    (∀ x y, ¬ inRect f x y → (compositeStep st f).1.canvas x y = drawPatch st.canvas f x y) ∧
    (compositeStep st f).1.previousImageData = st.previousImageData := by
  refine ⟨rfl, ?_, ?_, ?_⟩
  · intro x y hxy
    simp [compositeStep, hd, hxy]
  · intro x y hxy
    simp [compositeStep, hd, hxy]
  · simp [compositeStep, hd]

/-- A concrete 2×2 opaque red frame at the origin with disposal RestoreBackground. -/
def exFrameBg : RawFrame := ⟨0, 0, 2, 2, fun _ _ => ⟨255, 0, 0, 255⟩, some 50, 2⟩

theorem C2_restore_background_witness :
    ((compositeStep ⟨fun _ _ => transparent, none⟩ exFrameBg).1.canvas 0 0 = transparent) ∧
    ((compositeStep ⟨fun _ _ => transparent, none⟩ exFrameBg).1.canvas 3 3 =
      drawPatch (fun _ _ => transparent) exFrameBg 3 3) ∧
    ((compositeStep ⟨fun _ _ => transparent, none⟩ exFrameBg).1.previousImageData = none) :=
  ⟨(C2_restore_background ⟨fun _ _ => transparent, none⟩ exFrameBg rfl).2.1 0 0 (by decide),
   (C2_restore_background ⟨fun _ _ => transparent, none⟩ exFrameBg rfl).2.2.1 3 3 (by decide),
   (C2_restore_background ⟨fun _ _ => transparent, none⟩ exFrameBg rfl).2.2.2⟩

theorem runCompositor_prev_ne_none (st : CompositorState) (frames : List RawFrame)
    (h : st.previousImageData ≠ none) :
    (runCompositor st frames).previousImageData ≠ none := by
  induction frames generalizing st with
  | nil => exact h
  | cons f rest ih =>
    apply ih
    by_cases h2 : f.disposalType = 2
    · simpa [compositeStep, h2] using h
    · by_cases h3 : f.disposalType = 3
      · simpa [compositeStep, h2, h3] using h
      · simp [compositeStep, h2, h3]

theorem runCompositor_prev_none_iff (st : CompositorState) (frames : List RawFrame)
    (hst : st.previousImageData = none) :
    (runCompositor st frames).previousImageData = none ↔
      ∀ g ∈ frames, g.disposalType = 2 ∨ g.disposalType = 3 := by
  induction frames generalizing st with
  | nil => simp [runCompositor, hst]
  | cons f rest ih =>
    show (runCompositor (compositeStep st f).1 rest).previousImageData = none ↔ _
    by_cases h2 : f.disposalType = 2
    · have hst2 : (compositeStep st f).1.previousImageData = none := by
        simpa [compositeStep, h2] using hst
      rw [ih _ hst2]
      simp [h2]
    · by_cases h3 : f.disposalType = 3
      · have hst2 : (compositeStep st f).1.previousImageData = none := by
          simpa [compositeStep, h2, h3] using hst
        rw [ih _ hst2]
        simp [h3]
      · have hne : (compositeStep st f).1.previousImageData ≠ none := by
          simp [compositeStep, h2, h3]
        constructor
        · intro hfin
          exact absurd hfin (runCompositor_prev_ne_none _ rest hne)
        · intro hall
          exact absurd (hall f (List.mem_cons_self f rest)) (by simp [h2, h3])

/-- C3: for a frame with disposal RestorePrevious (3), the output is captured
first, then the canvas is replaced by the snapshot when one exists and is left
exactly as the just-drawn patch left it when no snapshot exists; moreover,
starting from the fresh compositor state, the snapshot is absent exactly when
no processed frame used a keep disposal (method ≤ 1, given methods ≤ 3). -/
theorem C3_restore_previous :
    (∀ (st : CompositorState) (f : RawFrame), f.disposalType = 3 →
      ((compositeStep st f).2.imageData = drawPatch st.canvas f) ∧
      (∀ p, st.previousImageData = some p → (compositeStep st f).1.canvas = p) ∧
      (st.previousImageData = none →
        (compositeStep st f).1.canvas = drawPatch st.canvas f) ∧
      (compositeStep st f).1.previousImageData = st.previousImageData) ∧
    (∀ frames : List RawFrame, (∀ g ∈ frames, g.disposalType ≤ 3) →
      ((runCompositor ⟨fun _ _ => transparent, none⟩ frames).previousImageData = none ↔
        ∀ g ∈ frames, 2 ≤ g.disposalType)) := by
  constructor
  · intro st f hd
    refine ⟨rfl, ?_, ?_, ?_⟩
    · intro p hp
      simp [compositeStep, hd, hp]
    · intro hp
      simp [compositeStep, hd, hp]
    · simp [compositeStep, hd]
  · intro frames hle
    rw [runCompositor_prev_none_iff _ frames rfl]
    constructor
    · intro hall g hg
      rcases hall g hg with h | h <;> omega
    · intro hall g hg
      have h1 := hall g hg
      have h2 := hle g hg
      omega

/-- A concrete 1×1 opaque blue frame at the origin with disposal RestorePrevious. -/
def exFrameRp : RawFrame := ⟨0, 0, 1, 1, fun _ _ => ⟨0, 0, 255, 255⟩, none, 3⟩

/-- A concrete snapshot canvas: solid opaque green. -/
def exSnapshot : Canvas := fun _ _ => ⟨0, 255, 0, 255⟩

theorem C3_restore_previous_witness :
    ((compositeStep ⟨fun _ _ => transparent, some exSnapshot⟩ exFrameRp).1.canvas = exSnapshot) ∧
    ((compositeStep ⟨fun _ _ => transparent, none⟩ exFrameRp).1.canvas =
      drawPatch (fun _ _ => transparent) exFrameRp) ∧
    ((runCompositor ⟨fun _ _ => transparent, none⟩ [exFrameRp]).previousImageData = none ↔
      ∀ g ∈ [exFrameRp], 2 ≤ g.disposalType) :=
  ⟨(C3_restore_previous.1 ⟨fun _ _ => transparent, some exSnapshot⟩ exFrameRp rfl).2.1
      exSnapshot rfl,
   (C3_restore_previous.1 ⟨fun _ _ => transparent, none⟩ exFrameRp rfl).2.2.1 rfl,
   C3_restore_previous.2 [exFrameRp] (by intro g hg; simp at hg; simp [hg, exFrameRp])⟩

/-- Default frame used only for out-of-range list reads in indexed statements. -/
def dfRawFrame : RawFrame := ⟨0, 0, 0, 0, fun _ _ => transparent, none, 0⟩

/-- Default output frame used only for out-of-range list reads. -/
def dfFullFrame : FullFrame := ⟨fun _ _ => transparent, 0⟩

theorem buildSteps_length (st : CompositorState) (frames : List RawFrame) :
    (buildSteps st frames).length = frames.length := by
  induction frames generalizing st with
  | nil => rfl
  | cons f rest ih => simp [buildSteps, ih]

theorem buildSteps_delay (st : CompositorState) (frames : List RawFrame) (i : ℕ)
    (h : i < frames.length) :
    ((buildSteps st frames).getD i dfFullFrame).delay =
      defaultDelay ((frames.getD i dfRawFrame).delay) := by
  induction frames generalizing st i with
  | nil => simp at h
  | cons f rest ih =>
    cases i with
    | zero => rfl
    | succ j =>
      have hj : j < rest.length := by simpa using h
      simpa [buildSteps] using ih (compositeStep st f).1 j hj

theorem defaultDelay_pos (d : Option ℕ) : 1 ≤ defaultDelay d := by
  cases d with
  | none => simp [defaultDelay]
  | some n =>
    by_cases hn : n = 0 <;> simp [defaultDelay, hn] <;> omega

/-- C5: the compositor emits exactly one output frame per raw frame, in order;
the i-th output's delay is the i-th raw frame's delay when positive and 100
when the delay is zero or unspecified, hence always at least 1. -/
theorem C5_one_output_per_frame :
    ∀ (rawFrames : List RawFrame) (width height : ℕ),
      (buildFullFrames rawFrames width height).length = rawFrames.length ∧
      ∀ i, i < rawFrames.length →
        ((buildFullFrames rawFrames width height).getD i dfFullFrame).delay =
          (match (rawFrames.getD i dfRawFrame).delay with
            | some d => if 0 < d then d else 100
            | none => 100) ∧
        1 ≤ ((buildFullFrames rawFrames width height).getD i dfFullFrame).delay := by
  intro rawFrames width height
  refine ⟨buildSteps_length _ rawFrames, ?_⟩
  intro i hi
  rw [buildFullFrames, buildSteps_delay _ rawFrames i hi]
  refine ⟨?_, defaultDelay_pos _⟩
  cases hd : (rawFrames.getD i dfRawFrame).delay with
  | none => rfl
  | some d =>
    rcases Nat.eq_zero_or_pos d with h0 | h0
    · simp [defaultDelay, h0]
    · have hne : d ≠ 0 := Nat.pos_iff_ne_zero.mp h0
      simp [defaultDelay, hne, h0]

/-- A concrete full-canvas frame whose delay is 0 (normalized to 100). -/
def exFrameZeroDelay : RawFrame := ⟨0, 0, 2, 2, fun _ _ => ⟨9, 9, 9, 255⟩, some 0, 0⟩

theorem C5_one_output_per_frame_witness :
    ((buildFullFrames [exFrameZeroDelay] 2 2).getD 0 dfFullFrame).delay =
      (match ([exFrameZeroDelay].getD 0 dfRawFrame).delay with
        | some d => if 0 < d then d else 100
        | none => 100) ∧
    1 ≤ ((buildFullFrames [exFrameZeroDelay] 2 2).getD 0 dfFullFrame).delay :=
  (C5_one_output_per_frame [exFrameZeroDelay] 2 2).2 0 (by decide)

/-- ImageData as consumed by toGrayscale: width, height, and the flat RGBA byte
array, pixel (x, y) starting at index (y·width + x)·4. -/
structure ImageData where
  width : ℕ
  height : ℕ
  data : List ℕ

/-- Grayscale extraction, translated from `toGrayscale`
(src/web/js/gif-parser.js, lines 314-329): per pixel,
(0.299·R + 0.587·G + 0.114·B) / 255. -/
def toGrayscale (imageData : ImageData) : List (List ℚ) :=
  (List.range imageData.height).map (fun y =>
    (List.range imageData.width).map (fun x =>
      let i := (y * imageData.width + x) * 4
      (0.299 * (imageData.data.getD i 0 : ℚ) + 0.587 * (imageData.data.getD (i + 1) 0 : ℚ)
        + 0.114 * (imageData.data.getD (i + 2) 0 : ℚ)) / 255))

/-- Tone adjustment, translated from `adjustBrightnessContrast`
(src/web/js/gif-parser.js, lines 338-362): per cell, the brightness shift when
brightness ≠ 0, then the contrast scale around 0.5 when contrast ≠ 100, then
the clamp to [0, 1]. -/
def adjustBrightnessContrast (gray : List (List ℚ)) (brightness contrast : ℚ) :
    List (List ℚ) :=
  gray.map (fun row => row.map (fun v =>
    let v1 := if brightness ≠ 0 then v + brightness / 100 else v
    let v2 := if contrast ≠ 100 then (v1 - 0.5) * (contrast / 100) + 0.5 else v1
    max 0 (min 1 v2)))

/-- The brightness stage as the specification words it: v + brightness/100,
skipped at the neutral value 0. -/
def brightnessSpec (v b : ℚ) : ℚ := if b ≠ 0 then v + b / 100 else v

/-- The contrast stage as the specification words it: (v - 0.5)·(contrast/100)
+ 0.5, skipped at the neutral value 100. -/
def contrastSpec (v c : ℚ) : ℚ := if c ≠ 100 then (v - 0.5) * (c / 100) + 0.5 else v

theorem getD_map_range {α : Type} (n : ℕ) (f : ℕ → α) (d : α) (y : ℕ) (hy : y < n) :
    ((List.range n).map f).getD y d = f y := by
  rw [List.getD_eq_getElem _ _ (by simpa using hy)]
  simp

/-- C8: grayscale extraction computes (0.299·R + 0.587·G + 0.114·B)/255 from the
flat RGBA data at base index (y·width + x)·4; tone adjustment is the brightness
stage then the contrast stage then the clamp, in that order; and the neutral
settings brightness 0, contrast 100 leave every in-range grid unchanged. -/
theorem C8_tone_contract :
    (∀ (img : ImageData) (y x : ℕ), y < img.height → x < img.width →
      getCell (toGrayscale img) y x =
        (0.299 * (img.data.getD ((y * img.width + x) * 4) 0 : ℚ)
          + 0.587 * (img.data.getD ((y * img.width + x) * 4 + 1) 0 : ℚ)
          + 0.114 * (img.data.getD ((y * img.width + x) * 4 + 2) 0 : ℚ)) / 255) ∧
    (∀ (gray : List (List ℚ)) (brightness contrast : ℚ),
      adjustBrightnessContrast gray brightness contrast =
        gray.map (fun row => row.map (fun v =>
          clamp01 (contrastSpec (brightnessSpec v brightness) contrast)))) ∧
    (∀ gray : List (List ℚ), (∀ row ∈ gray, ∀ v ∈ row, 0 ≤ v ∧ v ≤ 1) →
      adjustBrightnessContrast gray 0 100 = gray) := by
  refine ⟨?_, ?_, ?_⟩
  · intro img y x hy hx
    unfold getCell toGrayscale
    rw [getD_map_range img.height _ [] y hy, getD_map_range img.width _ 0 x hx]
  · intro gray brightness contrast
    rfl
  · intro gray hrange
    unfold adjustBrightnessContrast
    have e1 : ¬ ((0 : ℚ) ≠ 0) := by norm_num
    have e2 : ¬ ((100 : ℚ) ≠ 100) := by norm_num
    simp only [e1, e2, if_false, ite_false]
    have hrow : ∀ row ∈ gray, (row.map fun v => max 0 (min 1 v)) = row := by
      intro row hr
      have hcell : ∀ v ∈ row, (fun v => max 0 (min 1 v)) v = id v := by
        intro v hv
        have h01 := hrange row hr v hv
        show max 0 (min 1 v) = v
        rw [min_eq_right h01.2, max_eq_right h01.1]
      rw [List.map_congr_left hcell, List.map_id]
    calc gray.map (fun row => row.map fun v => max 0 (min 1 v))
        = gray.map id := List.map_congr_left hrow
      _ = gray := List.map_id gray

/-- A concrete 1×1 image: one pixel with R = 10, G = 20, B = 30, A = 255. -/
def exImage : ImageData := ⟨1, 1, [10, 20, 30, 255]⟩

theorem C8_tone_contract_witness :
    (getCell (toGrayscale exImage) 0 0 =
      (0.299 * (exImage.data.getD ((0 * exImage.width + 0) * 4) 0 : ℚ)
        + 0.587 * (exImage.data.getD ((0 * exImage.width + 0) * 4 + 1) 0 : ℚ)
        + 0.114 * (exImage.data.getD ((0 * exImage.width + 0) * 4 + 2) 0 : ℚ)) / 255) ∧
    adjustBrightnessContrast [[1/2]] 0 100 = [[1/2]] :=
  ⟨C8_tone_contract.1 exImage 0 0 (by decide) (by decide),
   C8_tone_contract.2.2 [[1/2]] (by
    intro row hr v hv
    simp only [List.mem_singleton] at hr hv
    subst hr
    simp only [List.mem_singleton] at hv
    subst hv
    norm_num)⟩

/-- Grid access for binary grids (JS `binary[y][x]`); out-of-bounds JS reads
give undefined, and `undefined > 0` is false, matching the default 0 here. -/
def getBin (g : List (List ℕ)) (y x : ℕ) : ℕ := (g.getD y []).getD x 0

/-- One padded row: `new Uint8Array(newW)` zero-filled with `row.set(binary[y])`
writing the original row at offset 0 (src/unnamed/part_001, lines 160-162). -/
def padRow (row : List ℕ) (newW : ℕ) : List ℕ :=
  row ++ List.replicate (newW - row.length) 0

/-- The padding block of brailleFromArray (src/unnamed/part_001, lines
151-169): when the height is not a multiple of 4 or the width not a multiple
of 2, rebuild the grid with zero rows appended at the bottom and zero columns
appended at the right. -/
def padForBraille (binary : List (List ℕ)) : List (List ℕ) :=
  let h := binary.length
  let w := (binary.headD []).length
  let padH := (4 - h % 4) % 4
  let padW := (2 - w % 2) % 2
  if 0 < padH ∨ 0 < padW then
    (List.range (h + padH)).map (fun y =>
      if y < h then padRow (binary.getD y []) (w + padW) else List.replicate (w + padW) 0)
  else binary

/-- The 4×2 dot block whose top-left dot is (y, x)
(src/unnamed/part_001, lines 175-180). -/
def dotsBlock (g : List (List ℕ)) (y x : ℕ) : List (List Bool) :=
  [[decide (0 < getBin g y x), decide (0 < getBin g y (x + 1))],
   [decide (0 < getBin g (y + 1) x), decide (0 < getBin g (y + 1) (x + 1))],
   [decide (0 < getBin g (y + 2) x), decide (0 < getBin g (y + 2) (x + 1))],
   [decide (0 < getBin g (y + 3) x), decide (0 < getBin g (y + 3) (x + 1))]]

/-- brailleFromArray (src/unnamed/part_001, lines 147-186): pad, then walk the
padded grid in 4-row bands and 2-column steps, packing each block into one
braille codepoint; rows of codepoints stand for the JS strings. -/
def brailleFromArray (binary : List (List ℕ)) : List (List ℕ) :=
  let padded := padForBraille binary
  let h := padded.length
  let w := (padded.headD []).length
  (List.range ((h + 3) / 4)).map (fun row =>
    (List.range ((w + 1) / 2)).map (fun col =>
      brailleCharCode (dotsBlock padded (4 * row) (2 * col))))

theorem getD_replicate_zero (n i : ℕ) : (List.replicate n (0 : ℕ)).getD i 0 = 0 := by
  induction n generalizing i with
  | zero => simp [List.getD]
  | succ m ih =>
    cases i with
    | zero => simp [List.replicate_succ]
    | succ j => simpa [List.replicate_succ] using ih j

theorem padRow_length (row : List ℕ) (newW : ℕ) (h : row.length ≤ newW) :
    (padRow row newW).length = newW := by
  simp [padRow]
  omega

theorem getD_row_length (binary : List (List ℕ)) (w : ℕ)
    (hw : ∀ row ∈ binary, row.length = w) (y : ℕ) (hy : y < binary.length) :
    (binary.getD y []).length = w := by
  rw [List.getD_eq_getElem _ _ hy]
  exact hw _ (List.getElem_mem hy)

/-- C6: padding for braille appends zero rows at the bottom and zero columns at
the right only: the padded grid has height h + (4 - h % 4) % 4 and width
w + (2 - w % 2) % 2, original cells keep their coordinates and values, every
appended cell reads as an unset dot, and the encoder emits ⌈paddedH/4⌉ lines of
⌈paddedW/2⌉ braille characters (so a 5×3 grid becomes 8×4 and yields exactly
2 lines of 2 characters). -/
theorem C6_braille_padding :
    ∀ (binary : List (List ℕ)) (h w : ℕ),
      binary.length = h → (∀ row ∈ binary, row.length = w) →
      (padForBraille binary).length = h + (4 - h % 4) % 4 ∧
      (∀ row ∈ padForBraille binary, row.length = w + (2 - w % 2) % 2) ∧
      (∀ y x, y < h → x < w → getBin (padForBraille binary) y x = getBin binary y x) ∧
      (∀ y x, h ≤ y ∨ w ≤ x → getBin (padForBraille binary) y x = 0) ∧
      (brailleFromArray binary).length = (h + (4 - h % 4) % 4 + 3) / 4 ∧
      (∀ line ∈ brailleFromArray binary, line.length = (w + (2 - w % 2) % 2 + 1) / 2) := by
  intro binary h w hh hw
  subst hh
  have hpad : padForBraille binary =
      if 0 < (4 - binary.length % 4) % 4 ∨ 0 < (2 - w % 2) % 2 then
        (List.range (binary.length + (4 - binary.length % 4) % 4)).map (fun y =>
          if y < binary.length then padRow (binary.getD y []) (w + (2 - w % 2) % 2)
          else List.replicate (w + (2 - w % 2) % 2) 0)
      else binary := by
    cases binary with
    | nil => simp [padForBraille]
    | cons r rest =>
      have hw0 : ((r :: rest).headD []).length = w := hw r (List.mem_cons_self r rest)
      simp only [padForBraille, hw0]
  have hrowlen : ∀ y, y < binary.length → (binary.getD y []).length = w :=
    fun y hy => getD_row_length binary w hw y hy
  have h1 : (padForBraille binary).length = binary.length + (4 - binary.length % 4) % 4 := by
    rw [hpad]
    split_ifs with hc
    · simp
    · omega
  have h2 : ∀ row ∈ padForBraille binary, row.length = w + (2 - w % 2) % 2 := by
    rw [hpad]
    split_ifs with hc
    · intro row hr
      obtain ⟨y, hy, rfl⟩ := List.mem_map.mp hr
      split_ifs with hyh
      · exact padRow_length _ _ (by rw [hrowlen y hyh]; omega)
      · simp
    · intro row hr
      have hrl := hw row hr
      omega
  have h3 : ∀ y x, y < binary.length → x < w →
      getBin (padForBraille binary) y x = getBin binary y x := by
    intro y x hy hx
    unfold getBin
    rw [hpad]
    split_ifs with hc
    · rw [getD_map_range _ _ [] y (by omega)]
      rw [if_pos hy]
      unfold padRow
      rw [List.getD_append _ _ _ _ (by rw [hrowlen y hy]; exact hx)]
    · rfl
  have hgg : ∀ (g : List (List ℕ)) (y x : ℕ), g.length ≤ y → (g.getD y []).getD x 0 = 0 := by
    intro g y x hy
    rw [List.getD_eq_default g [] hy]
    simp [List.getD]
  have h4 : ∀ y x, binary.length ≤ y ∨ w ≤ x → getBin (padForBraille binary) y x = 0 := by
    intro y x hub
    unfold getBin
    rw [hpad]
    split_ifs with hc
    · by_cases hyn : y < binary.length + (4 - binary.length % 4) % 4
      · rw [getD_map_range _ _ [] y hyn]
        split_ifs with hyh
        · have hxw : w ≤ x := by
            rcases hub with hcase | hcase
            · omega
            · exact hcase
          unfold padRow
          rw [List.getD_append_right _ _ _ _ (by rw [hrowlen y hyh]; exact hxw)]
          exact getD_replicate_zero _ _
        · exact getD_replicate_zero _ _
      · exact hgg _ y x (by simp only [List.length_map, List.length_range]; omega)
    · rcases hub with hcase | hcase
      · exact hgg binary y x hcase
      · by_cases hy : y < binary.length
        · exact List.getD_eq_default _ 0 (by rw [hrowlen y hy]; exact hcase)
        · exact hgg binary y x (by omega)
  refine ⟨h1, h2, h3, h4, ?_, ?_⟩
  · simp only [brailleFromArray, List.length_map, List.length_range]
    rw [h1]
  · intro line hl
    simp only [brailleFromArray] at hl
    obtain ⟨r, hr, rfl⟩ := List.mem_map.mp hl
    simp only [List.length_map, List.length_range]
    rcases hp : padForBraille binary with _ | ⟨r0, rest0⟩
    · rw [hp] at hr
      simp at hr
    · have hr0 : r0.length = w + (2 - w % 2) % 2 := by
        apply h2
        rw [hp]
        exact List.mem_cons_self r0 rest0
      simp only [List.headD_cons]
      rw [hr0]

/-- A concrete 5×3 binary grid (height not a multiple of 4, width not of 2). -/
def exGrid53 : List (List ℕ) :=
  [[1, 0, 1], [0, 1, 0], [1, 1, 0], [0, 0, 1], [1, 0, 1]]

theorem C6_braille_padding_witness :
    (padForBraille exGrid53).length = 5 + (4 - 5 % 4) % 4 ∧
    getBin (padForBraille exGrid53) 4 2 = getBin exGrid53 4 2 ∧
    getBin (padForBraille exGrid53) 6 1 = 0 ∧
    (brailleFromArray exGrid53).length = (5 + (4 - 5 % 4) % 4 + 3) / 4 ∧
    ((brailleFromArray exGrid53).getD 0 []).length = (3 + (2 - 3 % 2) % 2 + 1) / 2 :=
  ⟨(C6_braille_padding exGrid53 5 3 (by decide) (by decide)).1,
   (C6_braille_padding exGrid53 5 3 (by decide) (by decide)).2.2.1 4 2 (by decide) (by decide),
   (C6_braille_padding exGrid53 5 3 (by decide) (by decide)).2.2.2.1 6 1 (by decide),
   (C6_braille_padding exGrid53 5 3 (by decide) (by decide)).2.2.2.2.1,
   (C6_braille_padding exGrid53 5 3 (by decide) (by decide)).2.2.2.2.2 _ (by decide)⟩
